import Mathlib

/-!
Verification development for the xy-alioss upload coordination layer
(src/src/Alioss.js). The file embeds, as executable Lean definitions, the
parts of the source that the specification talks about:

- configuration objects and the merge utilities (the `deepMerge` helper is
  imported from `./utils`, whose source is not in the repository snapshot;
  it is modelled from the spec),
- the retry registry and failure handler of `AliOSS.multipartUpload`,
- the asynchronous option resolution of `AliOSS.getStore`,
- a small-step transition system for the single-flight initialization
  coordinator built from `getStore`, the private init routine and the
  event queue (the `Event` class from `./utils/event` is likewise missing
  from the snapshot and is modelled from the spec).

Theorems about these definitions settle the frozen claims.
-/

set_option autoImplicit false

namespace XyAlioss

/-! ## Configuration values

JavaScript option objects are embedded as finite string-keyed trees.
A `leaf` stands for any non-object value (string, number, boolean, ...);
the payload `Nat` is an opaque tag distinguishing concrete values. -/

inductive JVal where
  | leaf : Nat → JVal
  | obj : List (String × JVal) → JVal

/-- Lookup in a string-keyed association list of `JVal` entries,
first match wins (JavaScript objects have unique keys). -/
def lookupJ : List (String × JVal) → String → Option JVal
  | [], _ => none
  | (k', v) :: l, k => if k = k' then some v else lookupJ l k

/-- Replace the value stored under an existing key, leaving the list
unchanged when the key is absent. -/
def replaceKey : List (String × JVal) → String → JVal → List (String × JVal)
  | [], _, _ => []
  | (k', v) :: l, k, w => if k = k' then (k', w) :: l else (k', v) :: replaceKey l k w

/-- Set a key to a value: replace it when present, append it otherwise.
This is the effect one spread entry has in `\x7b...a, ...b\x7d`. -/
def setKey : List (String × JVal) → String → JVal → List (String × JVal)
  | [], k, v => [(k, v)]
  | (k', v') :: l, k, v => if k = k' then (k', v) :: l else (k', v') :: setKey l k v

/-- Shallow right-biased merge, the JavaScript spread `\x7b...a, ...b\x7d`:
every key of `b` overrides the corresponding key of `a` wholesale. -/
def spreadMerge (a b : List (String × JVal)) : List (String × JVal) :=
  b.foldl (fun acc kv => setKey acc kv.1 kv.2) a

mutual

/-- Modelled from the spec: the repository imports `deepMerge` from
`./utils`, which is absent from the snapshot. The spec describes it as
"a deep-merge utility: merge(base, override) -> merged (right-biased,
recursive for nested mapping values)". When both sides hold mapping
values the merge recurses; otherwise the override wins. -/
def deepMerge : JVal → JVal → JVal
  | .obj bs, .obj os => .obj (mergeInto bs os)
  | _, o => o

/-- Merge every entry of the override list `os` into the base list `bs`,
recursing through `deepMerge` on keys present on both sides. -/
def mergeInto : List (String × JVal) → List (String × JVal) → List (String × JVal)
  | bs, [] => bs
  | bs, (k, w) :: rest =>
    match lookupJ bs k with
    | some v => mergeInto (replaceKey bs k (deepMerge v w)) rest
    | none => mergeInto (bs ++ [(k, w)]) rest

end

/-- Configuration handed to the backend client by `AliOSS.put`
(src/src/Alioss.js line 301): `deepMerge(this.#opts?.config || \x7b\x7d, config)`,
the per-call config merged over the instance default config. -/
def putBackendConfig (instanceConfig perCallConfig : JVal) : JVal :=
  deepMerge instanceConfig perCallConfig

/-- Configuration handed to the backend client by the legacy `Alioss.upload`
(src/src/Alioss.js line 100): `deepMerge(config, this.opts.config)`,
the instance default config merged over the per-call config. -/
def uploadBackendConfig (perCallConfig instanceConfig : JVal) : JVal :=
  deepMerge perCallConfig instanceConfig

/-- Lookup of a top-level key of an object value. -/
def objLookup : JVal → String → Option JVal
  | .obj l, k => lookupJ l k
  | _, _ => none

/-! ## Asynchronous option resolution in `getStore`

Lines 271-277 of src/src/Alioss.js:
```
const options = await this.#opts.getOptions().catch(() => \x7b\x7d)
this.#opts = \x7b ...this.#opts, ...(options || \x7b\x7d) \x7d
```
A rejected provider promise is swallowed by the catch, which yields
`undefined`; `options || \x7b\x7d` then contributes nothing to the spread. -/

/-- Outcome of the `getOptions()` provider call: a rejection carrying an
error value, or a fulfillment carrying either an options object or a
falsy value (`none`). -/
def resolveAsyncOptions (opts : List (String × JVal))
    (outcome : Except JVal (Option (List (String × JVal)))) : List (String × JVal) :=
  let options : Option (List (String × JVal)) :=
    match outcome with
    | .error _ => none
    | .ok o => o
  spreadMerge opts (options.getD [])

/-! ## Retry registry and multipart failure handling

`AliOSS.#retryQueue` is a `Map` from resolved storage paths to retry
counters; it is embedded as an association list. -/

/-- Retry registry: resolved storage path to number of retries granted. -/
abbrev RQ := List (String × Nat)

/-- Counter lookup, mirroring `Map.prototype.get`. -/
def rqLookup : RQ → String → Option Nat
  | [], _ => none
  | (k', c) :: q, k => if k = k' then some c else rqLookup q k

/-- Counter update, mirroring `Map.prototype.set`. -/
def rqSet : RQ → String → Nat → RQ
  | [], k, c => [(k, c)]
  | (k', c') :: q, k, c => if k = k' then (k', c) :: q else (k', c') :: rqSet q k c

/-- Counter removal, mirroring `Map.prototype.delete`. -/
def rqDelete : RQ → String → RQ
  | [], _ => []
  | (k', c') :: q, k => if k = k' then rqDelete q k else (k', c') :: rqDelete q k

/-- Membership test, mirroring `Map.prototype.has`. -/
def rqHas (q : RQ) (k : String) : Bool :=
  (rqLookup q k).isSome

/-- Result of the catch handler of `this.#client.multipartUpload(...)` in
src/src/Alioss.js lines 358-374: the updated retry registry, and whether a
resubmission `this.multipartUpload(filename, data, \x7b ...config,
__isRetry: true \x7d)` was issued. In every branch the handler rethrows the
triggering error afterwards. -/
structure FailOutcome where
  retryQueue : RQ
  resubmits : Bool
deriving DecidableEq

/-- Translation of the catch handler: on cancellation the error is
rethrown at once; otherwise a missing counter is created at 0, and if the
counter is below `retryCount` it is incremented and a resubmission is
issued before the error is rethrown. -/
def onMpFailure (rq : RQ) (retryCount : Nat) (filename : String)
    (clientPresent isCancel : Bool) : FailOutcome :=
  if clientPresent && isCancel then
    ⟨rq, false⟩
  else
    let q1 := if rqHas rq filename then rq else rqSet rq filename 0
    let count := (rqLookup q1 filename).getD 0
    if count < retryCount then ⟨rqSet q1 filename (count + 1), true⟩
    else ⟨q1, false⟩

/-- Result of one backend `multipartUpload` call: success with an opaque
result tag, or failure with an opaque error tag and the value of
`client.isCancel()` observed by the catch handler. -/
inductive BackendResult where
  | ok (r : Nat)
  | fail (err : Nat) (isCancel : Bool)
deriving DecidableEq

/-- Projection of the merged per-call config that the multipart task body
reads: the `__isRetry` flag and whether a truthy `checkpoint` is present. -/
structure MpConfig where
  isRetry : Bool
  checkpoint : Bool
deriving DecidableEq

/-- Resolved storage path of a multipart attempt, src/src/Alioss.js lines
346-353: `config.checkpoint || isRetry ? filename :
generateFilename(\x7b...\x7d)`. The collaborator `generateFilename` is a pure
external helper; its output for this call is the parameter `gen`. -/
def mpResolvedKey (cfg : MpConfig) (filename gen : String) : String :=
  if cfg.checkpoint || cfg.isRetry then filename else gen

/-- Retry registry after the pre-attempt bookkeeping of lines 354-357:
`if (!isRetry) \x7b this.#retryQueue.delete(filename) \x7d`. -/
def mpPreQueue (rq : RQ) (cfg : MpConfig) (key : String) : RQ :=
  if !cfg.isRetry then rqDelete rq key else rq

/-- Observable outcome of one multipart task body (lines 340-385): the
final retry registry, the settlement of the promise returned to the caller
(`.error e` when the catch handler rethrows, `.ok r` on success), whether
a resubmission was issued, and the storage path used. -/
structure MpOutcome where
  retryQueue : RQ
  outcome : Except Nat Nat
  resubmitted : Bool
  key : String

/-- Translation of one multipart task body: resolve the storage path,
perform the fresh-call counter removal, run the backend call, and on
failure apply the catch handler. -/
def mpTask (retryCount : Nat) (rq : RQ) (filename : String) (cfg : MpConfig)
    (gen : String) (clientPresent : Bool) (backend : BackendResult) : MpOutcome :=
  let fname := mpResolvedKey cfg filename gen
  let rq1 := mpPreQueue rq cfg fname
  match backend with
  | .ok r => ⟨rq1, .ok r, false, fname⟩
  | .fail e c =>
    let fo := onMpFailure rq1 retryCount fname clientPresent c
    ⟨fo.retryQueue, .error e, fo.resubmits, fname⟩

/-- Number of resubmissions issued by the chain of retry attempts for key
`f` when every backend call fails with a non-cancellation error: each
attempt applies the catch handler to the current registry and, when it
resubmits, the next retry attempt runs against the updated registry.
`fuel` bounds the recursion; the theorems supply enough fuel. -/
def chainCount : Nat → RQ → Nat → String → Nat
  | 0, _, _, _ => 0
  | fuel + 1, rq, retryCount, f =>
    let fo := onMpFailure rq retryCount f true false
    if fo.resubmits then 1 + chainCount fuel fo.retryQueue retryCount f else 0

/-- Total number of resubmissions triggered by one fresh (non-retry,
no checkpoint) multipart upload whose backend call always fails with a
non-cancellation error, with configured `retryCount`. -/
def totalResubmissions (retryCount : Nat) (rq : RQ) (f gen : String) (e : Nat) : Nat :=
  let first := mpTask retryCount rq f ⟨false, false⟩ gen true (.fail e false)
  if first.resubmitted then
    1 + chainCount retryCount first.retryQueue retryCount first.key
  else 0

/-- Two-attempt view of the fire-and-forget resubmission: the original
fresh attempt fails with non-cancellation error `e`; when it resubmits,
the resubmitted attempt runs with the `__isRetry` flag set and meets
backend result `b2`. The pair collects the settlement of the original
caller promise and, when a resubmission happened, the settlement of the
resubmitted attempt (a distinct promise that nothing links back). -/
def mpTwoAttempts (retryCount : Nat) (rq : RQ) (f gen : String) (e : Nat)
    (b2 : BackendResult) : Except Nat Nat × Option (Except Nat Nat) :=
  let first := mpTask retryCount rq f ⟨false, false⟩ gen true (.fail e false)
  if first.resubmitted then
    let second := mpTask retryCount first.retryQueue first.key ⟨true, false⟩ gen true b2
    (first.outcome, some second.outcome)
  else
    (first.outcome, none)

/-! ## The single-flight initialization coordinator

`AliOSS.put` and `AliOSS.multipartUpload` both follow the same shape
(src/src/Alioss.js lines 297-329 and 338-388): synchronously register a
task on `this.#event` and call the private init routine. The init routine
(lines 393-408) emits the queue at once when `this.#client` exists,
otherwise awaits `getStore()` and then emits. `getStore` (lines 261-288)
resolves the cached client when present; otherwise, when
`this.#event.length - 1` is nonzero (another task was already pending) it
returns without ever resolving; otherwise it optionally awaits the
asynchronous option provider, constructs the backend client, caches and
resolves it.

The `Event` class is imported from `./utils/event`, which is absent from
the snapshot. Modelled from the spec: it is a FIFO task queue whose
`length` is the number of currently registered tasks and whose `emit`
executes every currently queued task in registration order and then
empties the queue ("Draining means: execute every currently queued task
in the order registered, then empty the queue").

JavaScript runs each call on a single thread up to the next await, so one
call performs atomically: registration, the client check, the queue-depth
check, and (in the synchronous-configuration case) client construction.
Suspension points are the await of the option provider and the await of
the `getStore` promise before the emit. The transition system below has
one transition per such atomic segment, with a free interleaving of the
pending calls; each call is a thread whose task id is its index. -/

/-- Control state of one upload call. `start`: the call has not run yet.
`awaitingOptions`: the call is the leader and is suspended awaiting the
asynchronous option provider. `awaitingEmit`: the call is the leader, the
client is constructed, and the call is suspended at the await of its
`getStore` promise, about to emit. `blocked`: the call hit the queue-depth
branch, so its `getStore` promise will never settle. `stuck`: the call was
the leader but client construction threw inside the async closure, so its
`getStore` promise will never settle either. `done`: the call finished its
init routine. -/
inductive Phase where
  | start
  | awaitingOptions
  | awaitingEmit
  | blocked
  | stuck
  | done
deriving DecidableEq

/-- Global state of the coordinator together with the pending calls and
the observables the claims speak about. `client` records whether
`this.#client` is set; `constructions` counts executions of `new OSS`;
`getOptionsCalls` counts invocations of the option provider; `queue` is
the event queue (task ids in registration order); `executed` is the log of
task executions in the order the drains started them; `registered` is the
log of registrations in order. `asyncMode` is the `async` option and
`ctorFails` states whether `new OSS` throws in this run; both are fixed
for the lifetime of the instance. -/
structure Sys where
  asyncMode : Bool
  ctorFails : Bool
  client : Bool
  constructions : Nat
  getOptionsCalls : Nat
  queue : List Nat
  executed : List Nat
  registered : List Nat
  threads : List Phase
deriving DecidableEq

/-- Initial state: `n` calls about to arrive, no client, empty queue. -/
def Sys.init (n : Nat) (a f : Bool) : Sys :=
  { asyncMode := a
    ctorFails := f
    client := false
    constructions := 0
    getOptionsCalls := 0
    queue := []
    executed := []
    registered := []
    threads := List.replicate n .start }

/-- One atomic segment of one call, labelled by the id of the call that
performs it. Each constructor is one path through the source:
`drain` is the prologue when the client already exists (register, then the
init routine emits immediately); `defer` is the prologue hitting the
queue-depth branch of `getStore`; `leadAsync` is the prologue of the sole
pending call with asynchronous configuration, suspending at the provider
await; `leadSync` is that prologue with synchronous configuration, which
constructs the client before suspending at the `getStore` await;
`optionsDone` is the resumption of the leader when the provider settles
(either way, rejection being swallowed), which constructs the client;
`emit` is the resumption of the leader after `getStore` resolved, which
drains the queue. A failing construction leaves the `getStore` promise
forever pending, so the leader moves to `stuck` and never emits. -/
inductive Step : Nat → Sys → Sys → Prop where
  | drain (i : Nat) (s : Sys) :
      s.threads[i]? = some .start → s.client = true →
      Step i s { s with
        queue := []
        executed := s.executed ++ (s.queue ++ [i])
        registered := s.registered ++ [i]
        threads := s.threads.set i .done }
  | defer (i : Nat) (s : Sys) :
      s.threads[i]? = some .start → s.client = false → s.queue ≠ [] →
      Step i s { s with
        queue := s.queue ++ [i]
        registered := s.registered ++ [i]
        threads := s.threads.set i .blocked }
  | leadAsync (i : Nat) (s : Sys) :
      s.threads[i]? = some .start → s.client = false → s.queue = [] →
      s.asyncMode = true →
      Step i s { s with
        queue := [i]
        registered := s.registered ++ [i]
        getOptionsCalls := s.getOptionsCalls + 1
        threads := s.threads.set i .awaitingOptions }
  | leadSync (i : Nat) (s : Sys) :
      s.threads[i]? = some .start → s.client = false → s.queue = [] →
      s.asyncMode = false →
      Step i s { s with
        queue := [i]
        registered := s.registered ++ [i]
        constructions := s.constructions + 1
        client := !s.ctorFails
        threads := s.threads.set i (if s.ctorFails then .stuck else .awaitingEmit) }
  | optionsDone (i : Nat) (s : Sys) (providerFailed : Bool) :
      s.threads[i]? = some .awaitingOptions →
      Step i s { s with
        constructions := s.constructions + 1
        client := !s.ctorFails
        threads := s.threads.set i (if s.ctorFails then .stuck else .awaitingEmit) }
  | emit (i : Nat) (s : Sys) :
      s.threads[i]? = some .awaitingEmit →
      Step i s { s with
        executed := s.executed ++ s.queue
        queue := []
        threads := s.threads.set i .done }

/-- Reachability under an arbitrary interleaving of the calls. -/
def Reach (s₀ s : Sys) : Prop :=
  Relation.ReflTransGen (fun x y => ∃ i, Step i x y) s₀ s

/-! ### List helpers -/

theorem lt_of_get {α : Type} {l : List α} {i : Nat} {a : α}
    (h : l[i]? = some a) : i < l.length := by
  rcases Nat.lt_or_ge i l.length with hlt | hge
  · exact hlt
  · rw [List.getElem?_eq_none hge] at h
    cases h

theorem get_set_self {α : Type} {l : List α} {i : Nat} {a b : α}
    (h : l[i]? = some b) : (l.set i a)[i]? = some a :=
  List.getElem?_set_self (lt_of_get h)

theorem get_set_cases {α : Type} {l : List α} {i j : Nat} {a b : α}
    (h : (l.set i a)[j]? = some b) :
    (i = j ∧ a = b) ∨ (i ≠ j ∧ l[j]? = some b) := by
  by_cases hij : i = j
  · subst hij
    left
    refine ⟨rfl, ?_⟩
    have hlt : i < l.length := by
      have hl := lt_of_get h
      simpa using hl
    rw [List.getElem?_set_self hlt] at h
    exact Option.some.inj h
  · right
    exact ⟨hij, by rwa [List.getElem?_set_ne hij] at h⟩

/-! ### The coordinator invariant -/

/-- Inductive invariant of the coordinator. The fields capture: the client
is constructed at most once and the option provider is invoked at most
once; a leader suspended at the provider await exists only before any
construction, is unique, and holds a place in the queue; a stuck leader
exists only in runs where construction throws and keeps the queue
nonempty forever; a leader about to emit implies the client exists; the
registration log splits exactly into the execution log followed by the
current queue, registered ids are never in phase `start`, and the log has
no duplicates; when construction throws, no task is ever executed and no
client ever appears. -/
structure SysInv (s : Sys) : Prop where
  cons_le : s.constructions ≤ 1
  client_cons : s.client = true → s.constructions = 1 ∧ s.ctorFails = false
  waitOpts : ∀ i : Nat, s.threads[i]? = some Phase.awaitingOptions →
    s.constructions = 0 ∧ s.client = false ∧ s.queue ≠ []
  waitOptsUniq : ∀ i j : Nat, s.threads[i]? = some Phase.awaitingOptions →
    s.threads[j]? = some Phase.awaitingOptions → i = j
  stuckInv : ∀ i : Nat, s.threads[i]? = some Phase.stuck → s.ctorFails = true ∧ s.queue ≠ []
  emitClient : ∀ i : Nat, s.threads[i]? = some Phase.awaitingEmit → s.client = true
  consWitness : 1 ≤ s.constructions →
    s.client = true ∨ ∃ i : Nat, s.threads[i]? = some Phase.stuck
  regEq : s.registered = s.executed ++ s.queue
  regPhase : ∀ i : Nat, i ∈ s.registered → s.threads[i]? ≠ some Phase.start
  regNodup : s.registered.Nodup
  opts_le : s.getOptionsCalls ≤ 1
  optsWitness : 1 ≤ s.getOptionsCalls → s.client = true ∨ s.queue ≠ []
  failNoExec : s.ctorFails = true → s.executed = [] ∧ s.client = false

theorem init_thread {n : Nat} {a f : Bool} {i : Nat} {p : Phase}
    (h : (Sys.init n a f).threads[i]? = some p) : p = Phase.start := by
  have hm : p ∈ List.replicate n Phase.start := List.getElem?_mem h
  exact List.eq_of_mem_replicate hm

theorem inv_init (n : Nat) (a f : Bool) : SysInv (Sys.init n a f) := by
  refine
    { cons_le := ?_, client_cons := ?_, waitOpts := ?_, waitOptsUniq := ?_,
      stuckInv := ?_, emitClient := ?_, consWitness := ?_, regEq := ?_,
      regPhase := ?_, regNodup := ?_, opts_le := ?_, optsWitness := ?_,
      failNoExec := ?_ }
  · exact Nat.zero_le 1
  · intro h; cases h
  · intro i h; cases init_thread h
  · intro i j hi _; cases init_thread hi
  · intro i h; cases init_thread h
  · intro i h; cases init_thread h
  · intro h; cases h
  · rfl
  · intro i h; cases h
  · exact List.nodup_nil
  · exact Nat.zero_le 1
  · intro h; cases h
  · intro _; exact ⟨rfl, rfl⟩

theorem bool_not_true {b : Bool} (h : (!b) = true) : b = false := by
  cases b
  · rfl
  · simp at h

theorem inv_step {i : Nat} {s s' : Sys} (hv : SysInv s) (h : Step i s s') : SysInv s' := by
  cases h with
  | drain hstart hcl =>
    obtain ⟨hc1, hcf⟩ := hv.client_cons hcl
    refine
      { cons_le := hv.cons_le, client_cons := fun _ => hv.client_cons hcl,
        waitOpts := ?_, waitOptsUniq := ?_, stuckInv := ?_,
        emitClient := fun _ _ => hcl, consWitness := fun _ => Or.inl hcl,
        regEq := ?_, regPhase := ?_, regNodup := ?_, opts_le := hv.opts_le,
        optsWitness := fun _ => Or.inl hcl, failNoExec := ?_ }
    · intro j hj
      rcases get_set_cases hj with ⟨_, hb⟩ | ⟨_, hold⟩
      · cases hb
      · obtain ⟨_, hcl', _⟩ := hv.waitOpts j hold
        rw [hcl] at hcl'
        cases hcl'
    · intro j k hj _
      rcases get_set_cases hj with ⟨_, hb⟩ | ⟨_, hold⟩
      · cases hb
      · obtain ⟨_, hcl', _⟩ := hv.waitOpts j hold
        rw [hcl] at hcl'
        cases hcl'
    · intro j hj
      rcases get_set_cases hj with ⟨_, hb⟩ | ⟨_, hold⟩
      · cases hb
      · obtain ⟨hcf', _⟩ := hv.stuckInv j hold
        rw [hcf] at hcf'
        cases hcf'
    · show s.registered ++ [i] = (s.executed ++ (s.queue ++ [i])) ++ []
      rw [hv.regEq]
      simp
    · intro j hjm hcontra
      rcases get_set_cases hcontra with ⟨_, hb⟩ | ⟨hij, hold⟩
      · cases hb
      · rcases List.mem_append.mp hjm with hjr | hji
        · exact hv.regPhase j hjr hold
        · have hji' : j = i := by simpa using hji
          exact hij hji'.symm
    · have hnotin : i ∉ s.registered := fun hmem => hv.regPhase i hmem hstart
      show (s.registered ++ [i]).Nodup
      simp [List.nodup_append, hv.regNodup, hnotin]
    · intro hf
      have hf' : s.ctorFails = true := hf
      rw [hcf] at hf'
      cases hf'
  | defer hstart hcl hq =>
    refine
      { cons_le := hv.cons_le, client_cons := ?_, waitOpts := ?_,
        waitOptsUniq := ?_, stuckInv := ?_, emitClient := ?_,
        consWitness := ?_, regEq := ?_, regPhase := ?_, regNodup := ?_,
        opts_le := hv.opts_le, optsWitness := fun _ => Or.inr (by simp),
        failNoExec := fun hf => hv.failNoExec hf }
    · intro h'
      have h'' : s.client = true := h'
      rw [hcl] at h''
      cases h''
    · intro j hj
      rcases get_set_cases hj with ⟨_, hb⟩ | ⟨_, hold⟩
      · cases hb
      · obtain ⟨h0, hcl', _⟩ := hv.waitOpts j hold
        exact ⟨h0, hcl', by simp⟩
    · intro j k hj hk
      rcases get_set_cases hj with ⟨_, hb⟩ | ⟨_, hjold⟩
      · cases hb
      · rcases get_set_cases hk with ⟨_, hb⟩ | ⟨_, hkold⟩
        · cases hb
        · exact hv.waitOptsUniq j k hjold hkold
    · intro j hj
      rcases get_set_cases hj with ⟨_, hb⟩ | ⟨_, hold⟩
      · cases hb
      · obtain ⟨hcf', _⟩ := hv.stuckInv j hold
        exact ⟨hcf', by simp⟩
    · intro j hj
      rcases get_set_cases hj with ⟨_, hb⟩ | ⟨_, hold⟩
      · cases hb
      · exact hv.emitClient j hold
    · intro hge
      rcases hv.consWitness hge with hcl' | ⟨j, hstuck⟩
      · exact Or.inl hcl'
      · refine Or.inr ⟨j, ?_⟩
        have hij : i ≠ j := by
          intro he
          rw [he] at hstart
          rw [hstart] at hstuck
          cases hstuck
        rw [List.getElem?_set_ne hij]
        exact hstuck
    · show s.registered ++ [i] = s.executed ++ (s.queue ++ [i])
      rw [hv.regEq, List.append_assoc]
    · intro j hjm hcontra
      rcases get_set_cases hcontra with ⟨_, hb⟩ | ⟨hij, hold⟩
      · cases hb
      · rcases List.mem_append.mp hjm with hjr | hji
        · exact hv.regPhase j hjr hold
        · have hji' : j = i := by simpa using hji
          exact hij hji'.symm
    · have hnotin : i ∉ s.registered := fun hmem => hv.regPhase i hmem hstart
      show (s.registered ++ [i]).Nodup
      simp [List.nodup_append, hv.regNodup, hnotin]
  | leadAsync hstart hcl hq ha =>
    have hc0 : s.constructions = 0 := by
      by_contra hne
      have hge : 1 ≤ s.constructions := Nat.one_le_iff_ne_zero.mpr hne
      rcases hv.consWitness hge with hcl' | ⟨j, hstuck⟩
      · rw [hcl] at hcl'; cases hcl'
      · obtain ⟨_, hqne⟩ := hv.stuckInv j hstuck
        exact hqne hq
    have ho0 : s.getOptionsCalls = 0 := by
      by_contra hne
      have hge : 1 ≤ s.getOptionsCalls := Nat.one_le_iff_ne_zero.mpr hne
      rcases hv.optsWitness hge with hcl' | hqne
      · rw [hcl] at hcl'; cases hcl'
      · exact hqne hq
    refine
      { cons_le := hv.cons_le, client_cons := ?_, waitOpts := ?_,
        waitOptsUniq := ?_, stuckInv := ?_, emitClient := ?_,
        consWitness := ?_, regEq := ?_, regPhase := ?_, regNodup := ?_,
        opts_le := ?_, optsWitness := fun _ => Or.inr (by simp),
        failNoExec := fun hf => hv.failNoExec hf }
    · intro h'
      have h'' : s.client = true := h'
      rw [hcl] at h''
      cases h''
    · intro j hj
      rcases get_set_cases hj with ⟨_, _⟩ | ⟨_, hold⟩
      · exact ⟨hc0, hcl, by simp⟩
      · obtain ⟨_, _, hqne⟩ := hv.waitOpts j hold
        exact (hqne hq).elim
    · intro j k hj hk
      rcases get_set_cases hj with ⟨hij, _⟩ | ⟨_, hjold⟩
      · rcases get_set_cases hk with ⟨hik, _⟩ | ⟨_, hkold⟩
        · rw [← hij, ← hik]
        · obtain ⟨_, _, hqne⟩ := hv.waitOpts k hkold
          exact (hqne hq).elim
      · obtain ⟨_, _, hqne⟩ := hv.waitOpts j hjold
        exact (hqne hq).elim
    · intro j hj
      rcases get_set_cases hj with ⟨_, hb⟩ | ⟨_, hold⟩
      · cases hb
      · obtain ⟨_, hqne⟩ := hv.stuckInv j hold
        exact (hqne hq).elim
    · intro j hj
      rcases get_set_cases hj with ⟨_, hb⟩ | ⟨_, hold⟩
      · cases hb
      · exact hv.emitClient j hold
    · intro hge
      have hge' : 1 ≤ s.constructions := hge
      rw [hc0] at hge'
      exact absurd hge' (by decide)
    · show s.registered ++ [i] = s.executed ++ [i]
      rw [hv.regEq, hq]
      simp
    · intro j hjm hcontra
      rcases get_set_cases hcontra with ⟨_, hb⟩ | ⟨hij, hold⟩
      · cases hb
      · rcases List.mem_append.mp hjm with hjr | hji
        · exact hv.regPhase j hjr hold
        · have hji' : j = i := by simpa using hji
          exact hij hji'.symm
    · have hnotin : i ∉ s.registered := fun hmem => hv.regPhase i hmem hstart
      show (s.registered ++ [i]).Nodup
      simp [List.nodup_append, hv.regNodup, hnotin]
    · show s.getOptionsCalls + 1 ≤ 1
      rw [ho0]
  | leadSync hstart hcl hq ha =>
    have hc0 : s.constructions = 0 := by
      by_contra hne
      have hge : 1 ≤ s.constructions := Nat.one_le_iff_ne_zero.mpr hne
      rcases hv.consWitness hge with hcl' | ⟨j, hstuck⟩
      · rw [hcl] at hcl'; cases hcl'
      · obtain ⟨_, hqne⟩ := hv.stuckInv j hstuck
        exact hqne hq
    refine
      { cons_le := ?_, client_cons := ?_, waitOpts := ?_,
        waitOptsUniq := ?_, stuckInv := ?_, emitClient := ?_,
        consWitness := ?_, regEq := ?_, regPhase := ?_, regNodup := ?_,
        opts_le := hv.opts_le, optsWitness := fun _ => Or.inr (by simp),
        failNoExec := ?_ }
    · show s.constructions + 1 ≤ 1
      rw [hc0]
    · intro h'
      have h'' : (!s.ctorFails) = true := h'
      refine ⟨?_, bool_not_true h''⟩
      show s.constructions + 1 = 1
      rw [hc0]
    · intro j hj
      rcases get_set_cases hj with ⟨_, hb⟩ | ⟨_, hold⟩
      · cases hcf2 : s.ctorFails <;> simp [hcf2] at hb
      · obtain ⟨_, _, hqne⟩ := hv.waitOpts j hold
        exact (hqne hq).elim
    · intro j k hj hk
      rcases get_set_cases hj with ⟨_, hb⟩ | ⟨_, hjold⟩
      · cases hcf2 : s.ctorFails <;> simp [hcf2] at hb
      · obtain ⟨_, _, hqne⟩ := hv.waitOpts j hjold
        exact (hqne hq).elim
    · intro j hj
      rcases get_set_cases hj with ⟨_, hb⟩ | ⟨_, hold⟩
      · cases hcf2 : s.ctorFails
        · simp [hcf2] at hb
        · exact ⟨rfl, by simp⟩
      · obtain ⟨_, hqne⟩ := hv.stuckInv j hold
        exact (hqne hq).elim
    · intro j hj
      show (!s.ctorFails) = true
      rcases get_set_cases hj with ⟨_, hb⟩ | ⟨_, hold⟩
      · cases hcf2 : s.ctorFails
        · simp
        · simp [hcf2] at hb
      · have hcl' := hv.emitClient j hold
        rw [hcl] at hcl'
        cases hcl'
    · intro _
      cases hcf2 : s.ctorFails
      · exact Or.inl rfl
      · refine Or.inr ⟨i, ?_⟩
        rw [get_set_self hstart]
        simp [hcf2]
    · show s.registered ++ [i] = s.executed ++ [i]
      rw [hv.regEq, hq]
      simp
    · intro j hjm hcontra
      rcases get_set_cases hcontra with ⟨_, hb⟩ | ⟨hij, hold⟩
      · cases hcf2 : s.ctorFails <;> simp [hcf2] at hb
      · rcases List.mem_append.mp hjm with hjr | hji
        · exact hv.regPhase j hjr hold
        · have hji' : j = i := by simpa using hji
          exact hij hji'.symm
    · have hnotin : i ∉ s.registered := fun hmem => hv.regPhase i hmem hstart
      show (s.registered ++ [i]).Nodup
      simp [List.nodup_append, hv.regNodup, hnotin]
    · intro hf
      have hf' : s.ctorFails = true := hf
      obtain ⟨hex, _⟩ := hv.failNoExec hf'
      refine ⟨hex, ?_⟩
      show (!s.ctorFails) = false
      simp [hf']
  | optionsDone providerFailed hwait =>
    obtain ⟨hc0, hcl, hqne⟩ := hv.waitOpts i hwait
    refine
      { cons_le := ?_, client_cons := ?_, waitOpts := ?_,
        waitOptsUniq := ?_, stuckInv := ?_, emitClient := ?_,
        consWitness := ?_, regEq := hv.regEq, regPhase := ?_,
        regNodup := hv.regNodup, opts_le := hv.opts_le,
        optsWitness := fun _ => Or.inr hqne, failNoExec := ?_ }
    · show s.constructions + 1 ≤ 1
      rw [hc0]
    · intro h'
      have h'' : (!s.ctorFails) = true := h'
      refine ⟨?_, bool_not_true h''⟩
      show s.constructions + 1 = 1
      rw [hc0]
    · intro j hj
      rcases get_set_cases hj with ⟨_, hb⟩ | ⟨hij, hold⟩
      · cases hcf2 : s.ctorFails <;> simp [hcf2] at hb
      · have hji := hv.waitOptsUniq j i hold hwait
        exact (hij hji.symm).elim
    · intro j k hj hk
      rcases get_set_cases hj with ⟨_, hb⟩ | ⟨hij, hjold⟩
      · cases hcf2 : s.ctorFails <;> simp [hcf2] at hb
      · have hji := hv.waitOptsUniq j i hjold hwait
        exact (hij hji.symm).elim
    · intro j hj
      rcases get_set_cases hj with ⟨_, hb⟩ | ⟨_, hold⟩
      · cases hcf2 : s.ctorFails
        · simp [hcf2] at hb
        · exact ⟨rfl, hqne⟩
      · exact hv.stuckInv j hold
    · intro j hj
      show (!s.ctorFails) = true
      rcases get_set_cases hj with ⟨_, hb⟩ | ⟨_, hold⟩
      · cases hcf2 : s.ctorFails
        · simp
        · simp [hcf2] at hb
      · have hcl' := hv.emitClient j hold
        rw [hcl] at hcl'
        cases hcl'
    · intro _
      cases hcf2 : s.ctorFails
      · exact Or.inl rfl
      · refine Or.inr ⟨i, ?_⟩
        rw [get_set_self hwait]
        simp [hcf2]
    · intro j hjm hcontra
      rcases get_set_cases hcontra with ⟨_, hb⟩ | ⟨_, hold⟩
      · cases hcf2 : s.ctorFails <;> simp [hcf2] at hb
      · exact hv.regPhase j hjm hold
    · intro hf
      have hf' : s.ctorFails = true := hf
      obtain ⟨hex, _⟩ := hv.failNoExec hf'
      refine ⟨hex, ?_⟩
      show (!s.ctorFails) = false
      simp [hf']
  | emit hwait =>
    have hcl : s.client = true := hv.emitClient i hwait
    obtain ⟨hc1, hcf⟩ := hv.client_cons hcl
    refine
      { cons_le := hv.cons_le, client_cons := fun _ => ⟨hc1, hcf⟩,
        waitOpts := ?_, waitOptsUniq := ?_, stuckInv := ?_,
        emitClient := fun _ _ => hcl, consWitness := fun _ => Or.inl hcl,
        regEq := ?_, regPhase := ?_, regNodup := hv.regNodup,
        opts_le := hv.opts_le, optsWitness := fun _ => Or.inl hcl,
        failNoExec := ?_ }
    · intro j hj
      rcases get_set_cases hj with ⟨_, hb⟩ | ⟨_, hold⟩
      · cases hb
      · obtain ⟨_, hcl', _⟩ := hv.waitOpts j hold
        rw [hcl] at hcl'
        cases hcl'
    · intro j k hj _
      rcases get_set_cases hj with ⟨_, hb⟩ | ⟨_, hold⟩
      · cases hb
      · obtain ⟨_, hcl', _⟩ := hv.waitOpts j hold
        rw [hcl] at hcl'
        cases hcl'
    · intro j hj
      rcases get_set_cases hj with ⟨_, hb⟩ | ⟨_, hold⟩
      · cases hb
      · obtain ⟨hcf', _⟩ := hv.stuckInv j hold
        rw [hcf] at hcf'
        cases hcf'
    · show s.registered = (s.executed ++ s.queue) ++ []
      rw [hv.regEq]
      simp
    · intro j hjm hcontra
      rcases get_set_cases hcontra with ⟨_, hb⟩ | ⟨_, hold⟩
      · cases hb
      · exact hv.regPhase j hjm hold
    · intro hf
      have hf' : s.ctorFails = true := hf
      rw [hcf] at hf'
      cases hf'

/-- The invariant holds in every state reachable from an initial state. -/
theorem inv_reach {n : Nat} {a f : Bool} {s : Sys}
    (h : Reach (Sys.init n a f) s) : SysInv s := by
  induction h with
  | refl => exact inv_init n a f
  | tail _ hstep ih =>
    obtain ⟨i, hi⟩ := hstep
    exact inv_step ih hi

/-- Every transition leaves the run parameters unchanged. -/
theorem step_flags {i : Nat} {s s' : Sys} (h : Step i s s') :
    s'.ctorFails = s.ctorFails ∧ s'.asyncMode = s.asyncMode := by
  cases h <;> exact ⟨rfl, rfl⟩

theorem reach_ctorFails {s₀ s : Sys} (h : Reach s₀ s) :
    s.ctorFails = s₀.ctorFails := by
  induction h with
  | refl => rfl
  | tail _ hstep ih =>
    obtain ⟨i, hi⟩ := hstep
    rw [(step_flags hi).1, ih]

/-! ## Lemmas about the retry registry -/

theorem rqLookup_set_self (q : RQ) (k : String) (c : Nat) :
    rqLookup (rqSet q k c) k = some c := by
  induction q with
  | nil => simp [rqSet, rqLookup]
  | cons kv q ih =>
    obtain ⟨k', c'⟩ := kv
    by_cases h : k = k'
    · simp [rqSet, rqLookup, h]
    · simp [rqSet, rqLookup, h, ih]

theorem rqLookup_delete_self (q : RQ) (k : String) :
    rqLookup (rqDelete q k) k = none := by
  induction q with
  | nil => simp [rqDelete, rqLookup]
  | cons kv q ih =>
    obtain ⟨k', c'⟩ := kv
    by_cases h : k = k'
    · subst h
      simp [rqDelete, ih]
    · simp [rqDelete, rqLookup, h, ih]

/-- Evaluation of a fresh failing multipart attempt with at least one
retry allowed: the counter for the generated key is deleted, recreated at
0, found below the maximum, bumped to 1, and a resubmission is issued
while the caller promise still rejects. -/
theorem mpFreshFail (K : Nat) (rq : RQ) (f gen : String) (e : Nat) (hK : 0 < K) :
    mpTask K rq f ⟨false, false⟩ gen true (.fail e false)
      = ⟨rqSet (rqSet (rqDelete rq gen) gen 0) gen 1, Except.error e, true, gen⟩ := by
  simp [mpTask, mpResolvedKey, mpPreQueue, onMpFailure, rqHas,
    rqLookup_delete_self, rqLookup_set_self, hK]

/-- Evaluation of a fresh failing multipart attempt with `retryCount = 0`:
the counter is created at 0 and no resubmission is issued. -/
theorem mpFreshFailZero (rq : RQ) (f gen : String) (e : Nat) :
    mpTask 0 rq f ⟨false, false⟩ gen true (.fail e false)
      = ⟨rqSet (rqDelete rq gen) gen 0, Except.error e, false, gen⟩ := by
  simp [mpTask, mpResolvedKey, mpPreQueue, onMpFailure, rqHas,
    rqLookup_delete_self, rqLookup_set_self]

/-- Resubmission count of the always-failing retry chain, as a function of
the counter value the chain starts from. -/
theorem chainCount_from (K : Nat) (f : String) :
    ∀ (fuel c : Nat) (rq : RQ), rqLookup rq f = some c → c ≤ K → K - c ≤ fuel →
      chainCount fuel rq K f = K - c := by
  intro fuel
  induction fuel with
  | zero =>
    intro c rq hlook hcK hfuel
    have h0 : K - c = 0 := Nat.le_zero.mp hfuel
    simp [chainCount, h0]
  | succ fuel ih =>
    intro c rq hlook hcK hfuel
    have hhas : rqHas rq f = true := by simp [rqHas, hlook]
    by_cases hlt : c < K
    · have hfo : onMpFailure rq K f true false = ⟨rqSet rq f (c + 1), true⟩ := by
        simp [onMpFailure, hhas, hlook, hlt]
      have hrec := ih (c + 1) (rqSet rq f (c + 1)) (rqLookup_set_self rq f (c + 1))
        hlt (by omega)
      simp only [chainCount, hfo]
      rw [if_pos trivial, hrec]
      omega
    · have hceq : c = K := by omega
      have hfo : onMpFailure rq K f true false = ⟨rq, false⟩ := by
        simp [onMpFailure, hhas, hlook, hlt]
      simp only [chainCount, hfo]
      rw [if_neg (by simp)]
      omega

/-- C3: with configured retryCount = K, a multipartUpload whose backend
call always fails with a non-cancellation error schedules exactly K
resubmissions for its key; each failure with a counter value below K
increments the counter (starting from 0) and resubmits once with the
retry flag set; the failure observed once the counter has reached K is
surfaced with no further resubmission scheduled. -/
theorem claim3_retry_bound (K : Nat) (rq : RQ) (f gen : String) (e : Nat) :
    totalResubmissions K rq f gen e = K
    ∧ (∀ c : Nat, c < K →
        onMpFailure (rqSet rq f c) K f true false
          = ⟨rqSet (rqSet rq f c) f (c + 1), true⟩)
    ∧ onMpFailure (rqSet rq f K) K f true false = ⟨rqSet rq f K, false⟩ := by
  refine ⟨?_, ?_, ?_⟩
  · by_cases hK : K = 0
    · subst hK
      simp [totalResubmissions, mpFreshFailZero]
    · have hK0 : 0 < K := Nat.pos_of_ne_zero hK
      have hchain := chainCount_from K gen K 1
        (rqSet (rqSet (rqDelete rq gen) gen 0) gen 1)
        (rqLookup_set_self _ _ _) hK0 (by omega)
      simp only [totalResubmissions, mpFreshFail K rq f gen e hK0]
      rw [if_pos trivial, hchain]
      omega
  · intro c hc
    simp [onMpFailure, rqHas, rqLookup_set_self, hc]
  · simp [onMpFailure, rqHas, rqLookup_set_self]

/-- Witness for C3 at retryCount 2: exactly two resubmissions, and the
failure at counter 1 below the bound bumps the counter and resubmits. -/
theorem claim3_retry_bound_witness :
    totalResubmissions 2 [] "a.png" "media/g.png" 7 = 2
    ∧ onMpFailure (rqSet [] "a.png" 1) 2 "a.png" true false
        = ⟨rqSet (rqSet [] "a.png" 1) "a.png" 2, true⟩ :=
  ⟨(claim3_retry_bound 2 [] "a.png" "media/g.png" 7).1,
   (claim3_retry_bound 2 [] "a.png" "media/g.png" 7).2.1 1 (by decide)⟩

/-- C4: a retry resubmission is fire-and-forget. The original call still
rejects with the triggering backend error, whatever backend result the
resubmitted attempt later meets, and when the resubmitted attempt
succeeds, its success lands on the separate resubmission outcome while
the original rejection stands. -/
theorem claim4_fire_and_forget (K : Nat) (rq : RQ) (f gen : String) (e r : Nat)
    (b2 : BackendResult) (hK : 0 < K) :
    (mpTwoAttempts K rq f gen e b2).1 = Except.error e
    ∧ (mpTwoAttempts K rq f gen e (.ok r)).2 = some (Except.ok r) := by
  constructor
  · simp [mpTwoAttempts, mpTask, mpResolvedKey, mpPreQueue, onMpFailure,
      rqHas, rqLookup_delete_self, rqLookup_set_self, hK]
  · simp [mpTwoAttempts, mpTask, mpResolvedKey, mpPreQueue, onMpFailure,
      rqHas, rqLookup_delete_self, rqLookup_set_self, hK]

/-- Witness for C4: with retryCount 5, the original attempt rejects with
error 9 while the background resubmission succeeds with result 3. -/
theorem claim4_fire_and_forget_witness :
    (mpTwoAttempts 5 [] "doc.pdf" "media/x.pdf" 9 (BackendResult.ok 3)).1
      = Except.error 9
    ∧ (mpTwoAttempts 5 [] "doc.pdf" "media/x.pdf" 9 (BackendResult.ok 3)).2
      = some (Except.ok 3) :=
  ⟨(claim4_fire_and_forget 5 [] "doc.pdf" "media/x.pdf" 9 3 (BackendResult.ok 3)
      (by decide)).1,
   (claim4_fire_and_forget 5 [] "doc.pdf" "media/x.pdf" 9 3 (BackendResult.ok 3)
      (by decide)).2⟩

/-- Counterexample to C5 as stated. First: a fresh (non-retry) call whose
merged config carries a checkpoint does NOT compute its storage path via
filename generation; it reuses the provided path. Second: a retry counter
can exist while no retry for the key is active: with retryCount 0 the
fresh failing attempt creates the counter at 0, resubmits nothing, and
leaves the counter in the registry. -/
theorem claim5_counterexample :
    mpResolvedKey ⟨false, true⟩ "doc.pdf" "media/g.pdf" = "doc.pdf"
    ∧ "doc.pdf" ≠ "media/g.pdf"
    ∧ (mpTask 0 [] "doc.pdf" ⟨false, false⟩ "media/g.pdf" true
        (.fail 7 false)).resubmitted = false
    ∧ rqLookup (mpTask 0 [] "doc.pdf" ⟨false, false⟩ "media/g.pdf" true
        (.fail 7 false)).retryQueue "media/g.pdf" = some 0 := by
  refine ⟨rfl, by decide, ?_, ?_⟩
  · rw [mpFreshFailZero]
  · rw [mpFreshFailZero]
    exact rqLookup_set_self _ _ _

/-- C5 as amended: a fresh (non-retry) multipartUpload without a
checkpoint in its merged config computes its target storage path via
filename generation and removes any stale retry counter for that path
before attempting the upload; a fresh call with a checkpoint, like a
retry invocation, reuses the exact provided path (a fresh call still
removes the counter for that path, a retry leaves the registry
untouched). -/
theorem claim5_fresh_vs_retry (rq : RQ) (f gen : String) (cfg : MpConfig) :
    (cfg.isRetry = false → cfg.checkpoint = false →
      mpResolvedKey cfg f gen = gen
      ∧ mpPreQueue rq cfg (mpResolvedKey cfg f gen) = rqDelete rq gen
      ∧ rqLookup (mpPreQueue rq cfg (mpResolvedKey cfg f gen)) gen = none)
    ∧ (cfg.isRetry = false → cfg.checkpoint = true →
      mpResolvedKey cfg f gen = f
      ∧ mpPreQueue rq cfg (mpResolvedKey cfg f gen) = rqDelete rq f)
    ∧ (cfg.isRetry = true →
      mpResolvedKey cfg f gen = f
      ∧ mpPreQueue rq cfg (mpResolvedKey cfg f gen) = rq) := by
  refine ⟨?_, ?_, ?_⟩
  · intro h1 h2
    simp [mpResolvedKey, mpPreQueue, h1, h2, rqLookup_delete_self]
  · intro h1 h2
    simp [mpResolvedKey, mpPreQueue, h1, h2]
  · intro h1
    simp [mpResolvedKey, mpPreQueue, h1]

/-- Witness for the amended C5 at concrete fresh and retry configs. -/
theorem claim5_fresh_vs_retry_witness :
    mpResolvedKey ⟨false, false⟩ "a.png" "media/g.png" = "media/g.png"
    ∧ mpResolvedKey ⟨true, false⟩ "a.png" "media/g.png" = "a.png"
    ∧ mpPreQueue [("media/g.png", 3)] ⟨false, false⟩
        (mpResolvedKey ⟨false, false⟩ "a.png" "media/g.png")
      = rqDelete [("media/g.png", 3)] "media/g.png" :=
  ⟨((claim5_fresh_vs_retry [] "a.png" "media/g.png" ⟨false, false⟩).1 rfl rfl).1,
   ((claim5_fresh_vs_retry [] "a.png" "media/g.png" ⟨true, false⟩).2.2 rfl).1,
   ((claim5_fresh_vs_retry [("media/g.png", 3)] "a.png" "media/g.png"
      ⟨false, false⟩).1 rfl rfl).2.1⟩

/-- C6: a multipart backend failure observed while the client reports
cancellation is propagated immediately: the caller promise rejects with
the error, no resubmission is scheduled, and the retry registry is left
exactly as the pre-attempt bookkeeping left it - no counter is created or
incremented - regardless of how many retries remain. -/
theorem claim6_cancellation_terminal (K : Nat) (rq : RQ) (f gen : String)
    (cfg : MpConfig) (e : Nat) :
    (mpTask K rq f cfg gen true (.fail e true)).outcome = Except.error e
    ∧ (mpTask K rq f cfg gen true (.fail e true)).resubmitted = false
    ∧ (mpTask K rq f cfg gen true (.fail e true)).retryQueue
        = mpPreQueue rq cfg (mpResolvedKey cfg f gen) := by
  refine ⟨?_, ?_, ?_⟩ <;> simp [mpTask, onMpFailure]

/-! ## Lemmas about configuration lookups and merges -/

theorem lookupJ_setKey_self (l : List (String × JVal)) (k : String) (v : JVal) :
    lookupJ (setKey l k v) k = some v := by
  induction l with
  | nil => simp [setKey, lookupJ]
  | cons kv l ih =>
    obtain ⟨k₀, v'⟩ := kv
    by_cases h : k = k₀
    · subst h
      simp [setKey, lookupJ]
    · simp [setKey, lookupJ, h, ih]

theorem lookupJ_eq_none_of_not_mem (l : List (String × JVal)) (k : String)
    (h : k ∉ l.map Prod.fst) : lookupJ l k = none := by
  induction l with
  | nil => rfl
  | cons kv l ih =>
    obtain ⟨k₀, v⟩ := kv
    simp only [List.map_cons, List.mem_cons] at h
    push_neg at h
    simp [lookupJ, h.1, ih h.2]

theorem lookupJ_append (l₁ l₂ : List (String × JVal)) (k : String) :
    lookupJ (l₁ ++ l₂) k =
      match lookupJ l₁ k with
      | some v => some v
      | none => lookupJ l₂ k := by
  induction l₁ with
  | nil => rfl
  | cons kv l ih =>
    obtain ⟨k₀, v⟩ := kv
    by_cases h : k = k₀
    · simp [lookupJ, h]
    · simp [lookupJ, h, ih]

theorem lookupJ_replaceKey_self (l : List (String × JVal)) (k : String) (w : JVal) :
    lookupJ (replaceKey l k w) k =
      match lookupJ l k with
      | some _ => some w
      | none => none := by
  induction l with
  | nil => rfl
  | cons kv l ih =>
    obtain ⟨k₀, v⟩ := kv
    by_cases h : k = k₀
    · subst h
      simp [replaceKey, lookupJ]
    · simp [replaceKey, lookupJ, h, ih]

theorem lookupJ_replaceKey_ne (l : List (String × JVal)) (kr : String) (w : JVal)
    (kn : String) (h : kn ≠ kr) :
    lookupJ (replaceKey l kr w) kn = lookupJ l kn := by
  induction l with
  | nil => rfl
  | cons kv l ih =>
    obtain ⟨k₀, v⟩ := kv
    by_cases h0 : kr = k₀
    · subst h0
      simp [replaceKey, lookupJ, h]
    · simp [replaceKey, lookupJ, h0, ih]

/-- How `deepMerge` behaves when the override is a non-mapping value:
the override wins wholesale. -/
theorem deepMerge_leaf (v : JVal) (n : Nat) :
    deepMerge v (JVal.leaf n) = JVal.leaf n := by
  cases v <;> simp [deepMerge]

/-- Key-level characterization of the right-biased deep merge: a key
present in the override either overrides the base entry (merging
recursively when both are present) or is appended; keys only in the base
survive unchanged. The override list is assumed to have unique keys, as
JavaScript object literals do. -/
theorem lookupJ_mergeInto :
    ∀ (os bs : List (String × JVal)) (k : String), (os.map Prod.fst).Nodup →
      lookupJ (mergeInto bs os) k =
        match lookupJ os k, lookupJ bs k with
        | some w, some v => some (deepMerge v w)
        | some w, none => some w
        | none, r => r := by
  intro os
  induction os with
  | nil =>
    intro bs k _
    simp [mergeInto, lookupJ]
  | cons kv rest ih =>
    obtain ⟨k₀, w⟩ := kv
    intro bs k hnd
    have hnd' : (rest.map Prod.fst).Nodup := by
      simp only [List.map_cons, List.nodup_cons] at hnd
      exact hnd.2
    have hk₀ : k₀ ∉ rest.map Prod.fst := by
      simp only [List.map_cons, List.nodup_cons] at hnd
      exact hnd.1
    rcases hdc : lookupJ bs k₀ with _ | v
    · rw [show mergeInto bs ((k₀, w) :: rest) = mergeInto (bs ++ [(k₀, w)]) rest by
        simp [mergeInto, hdc]]
      rw [ih (bs ++ [(k₀, w)]) k hnd']
      by_cases hkk : k = k₀
      · subst hkk
        have hrest : lookupJ rest k = none := lookupJ_eq_none_of_not_mem rest k hk₀
        simp [lookupJ_append, hdc, hrest, lookupJ]
      · have h1 : lookupJ ((k₀, w) :: rest) k = lookupJ rest k := by
          simp [lookupJ, hkk]
        have h2 : lookupJ (bs ++ [(k₀, w)]) k = lookupJ bs k := by
          rw [lookupJ_append]
          cases hbk : lookupJ bs k <;> simp [lookupJ, hkk]
        rw [h1, h2]
    · rw [show mergeInto bs ((k₀, w) :: rest)
          = mergeInto (replaceKey bs k₀ (deepMerge v w)) rest by
        simp [mergeInto, hdc]]
      rw [ih (replaceKey bs k₀ (deepMerge v w)) k hnd']
      by_cases hkk : k = k₀
      · subst hkk
        have hrest : lookupJ rest k = none := lookupJ_eq_none_of_not_mem rest k hk₀
        have hrep : lookupJ (replaceKey bs k (deepMerge v w)) k
            = some (deepMerge v w) := by
          rw [lookupJ_replaceKey_self, hdc]
        simp [lookupJ, hrest, hrep, hdc]
      · have h1 : lookupJ ((k₀, w) :: rest) k = lookupJ rest k := by
          simp [lookupJ, hkk]
        have h2 : lookupJ (replaceKey bs k₀ (deepMerge v w)) k = lookupJ bs k :=
          lookupJ_replaceKey_ne bs k₀ (deepMerge v w) k hkk
        rw [h1, h2]

/-- C8: when asynchronous configuration resolution is enabled and the
provider rejects, the failure is swallowed and the stored options are
left exactly as they stood (no propagation; the function is total, so no
error escapes to any caller); a falsy fulfillment likewise changes
nothing; a successful fulfillment is shallow-merged over the stored
options, the resolved value winning on each of its keys. -/
theorem claim8_provider_failure_swallowed (opts o : List (String × JVal))
    (e : JVal) (k : String) (v : JVal) :
    resolveAsyncOptions opts (Except.error e) = opts
    ∧ resolveAsyncOptions opts (Except.ok none) = opts
    ∧ resolveAsyncOptions opts (Except.ok (some o)) = spreadMerge opts o
    ∧ lookupJ (resolveAsyncOptions opts (Except.ok (some [(k, v)]))) k = some v := by
  refine ⟨rfl, rfl, rfl, ?_⟩
  show lookupJ (setKey opts k v) k = some v
  exact lookupJ_setKey_self opts k v

/-- Counterexample to C9 as stated. The claim asserts that for every put
call the per-call value wins on conflicting keys; in the legacy
`Alioss.upload` the arguments of the deep merge are reversed, so on the
conflicting key "headers" the instance default (tag 1) survives instead
of the per-call value (tag 2). -/
theorem claim9_counterexample :
    objLookup (uploadBackendConfig (JVal.obj [("headers", JVal.leaf 2)])
      (JVal.obj [("headers", JVal.leaf 1)])) "headers" = some (JVal.leaf 1)
    ∧ JVal.leaf 1 ≠ JVal.leaf 2 := by
  constructor
  · have hm : objLookup (uploadBackendConfig (JVal.obj [("headers", JVal.leaf 2)])
        (JVal.obj [("headers", JVal.leaf 1)])) "headers"
        = lookupJ (mergeInto [("headers", JVal.leaf 2)]
            [("headers", JVal.leaf 1)]) "headers" := by
      simp [uploadBackendConfig, deepMerge, objLookup]
    rw [hm, lookupJ_mergeInto _ _ _ (by simp)]
    simp [lookupJ, deepMerge_leaf]
  · simp

/-- C9 as amended: in `AliOSS.put` the backend receives the per-call
config deep-merged over the instance default, so on a conflicting
top-level key carrying a non-mapping per-call value the per-call value
wins; in the legacy `Alioss.upload` the merge arguments are reversed, so
there the instance default wins on conflicts. -/
theorem claim9_merge_bias (bs os : List (String × JVal)) (k : String) (n m : Nat)
    (hos : (os.map Prod.fst).Nodup) (hbs : (bs.map Prod.fst).Nodup) :
    (lookupJ os k = some (JVal.leaf n) →
      objLookup (putBackendConfig (JVal.obj bs) (JVal.obj os)) k
        = some (JVal.leaf n))
    ∧ (lookupJ bs k = some (JVal.leaf m) →
      objLookup (uploadBackendConfig (JVal.obj os) (JVal.obj bs)) k
        = some (JVal.leaf m)) := by
  constructor
  · intro h
    have hm : objLookup (putBackendConfig (JVal.obj bs) (JVal.obj os)) k
        = lookupJ (mergeInto bs os) k := by
      simp [putBackendConfig, deepMerge, objLookup]
    rw [hm, lookupJ_mergeInto os bs k hos, h]
    cases hb : lookupJ bs k with
    | none => rfl
    | some v => simp [deepMerge_leaf]
  · intro h
    have hm : objLookup (uploadBackendConfig (JVal.obj os) (JVal.obj bs)) k
        = lookupJ (mergeInto os bs) k := by
      simp [uploadBackendConfig, deepMerge, objLookup]
    rw [hm, lookupJ_mergeInto bs os k hbs, h]
    cases ho : lookupJ os k with
    | none => rfl
    | some v => simp [deepMerge_leaf]

/-- Witness for the amended C9: with instance default headers tag 1 and
per-call headers tag 2, `AliOSS.put` delivers tag 2 and the legacy
`Alioss.upload` delivers tag 1. -/
theorem claim9_merge_bias_witness :
    objLookup (putBackendConfig (JVal.obj [("headers", JVal.leaf 1)])
      (JVal.obj [("headers", JVal.leaf 2)])) "headers" = some (JVal.leaf 2)
    ∧ objLookup (uploadBackendConfig (JVal.obj [("headers", JVal.leaf 2)])
      (JVal.obj [("headers", JVal.leaf 1)])) "headers" = some (JVal.leaf 1) :=
  ⟨(claim9_merge_bias [("headers", JVal.leaf 1)] [("headers", JVal.leaf 2)]
      "headers" 2 1 (by simp) (by simp)).1 (by simp [lookupJ]),
   (claim9_merge_bias [("headers", JVal.leaf 1)] [("headers", JVal.leaf 2)]
      "headers" 2 1 (by simp) (by simp)).2 (by simp [lookupJ])⟩

/-! ## Claims about the coordinator

A concrete run used by the witnesses: two synchronous-configuration calls,
call 0 leads, constructs the client and eventually emits; call 1 arrives
after construction and drains the queue itself. -/

def demo0 : Sys := Sys.init 2 false false

def demo1 : Sys :=
  { asyncMode := false, ctorFails := false, client := true, constructions := 1,
    getOptionsCalls := 0, queue := [0], executed := [], registered := [0],
    threads := [Phase.awaitingEmit, Phase.start] }

def demo2 : Sys :=
  { asyncMode := false, ctorFails := false, client := true, constructions := 1,
    getOptionsCalls := 0, queue := [], executed := [0, 1], registered := [0, 1],
    threads := [Phase.awaitingEmit, Phase.done] }

def demo3 : Sys :=
  { asyncMode := false, ctorFails := false, client := true, constructions := 1,
    getOptionsCalls := 0, queue := [], executed := [0, 1], registered := [0, 1],
    threads := [Phase.done, Phase.done] }

theorem demoStep01 : Step 0 demo0 demo1 :=
  Step.leadSync 0 demo0 rfl rfl rfl rfl

theorem demoStep12 : Step 1 demo1 demo2 :=
  Step.drain 1 demo1 rfl rfl

theorem demoStep23 : Step 0 demo2 demo3 :=
  Step.emit 0 demo2 rfl

theorem demoReach : Reach demo0 demo3 :=
  Relation.ReflTransGen.tail
    (Relation.ReflTransGen.tail
      (Relation.ReflTransGen.single ⟨0, demoStep01⟩)
      ⟨1, demoStep12⟩)
    ⟨0, demoStep23⟩

/-- C1: for every number of concurrent put/multipartUpload calls issued
while the client is absent, at most one backend client is ever
constructed, and the asynchronous configuration resolution is run at most
once - in every state reachable under any interleaving, the number of
executions of the backend constructor and the number of invocations of
the option provider are each at most one. -/
theorem claim1_single_construction (n : Nat) (a f : Bool) (s : Sys)
    (h : Reach (Sys.init n a f) s) :
    s.constructions ≤ 1 ∧ s.getOptionsCalls ≤ 1 :=
  ⟨(inv_reach h).cons_le, (inv_reach h).opts_le⟩

/-- Witness for C1 on the concrete two-call run. -/
theorem claim1_single_construction_witness :
    demo3.constructions ≤ 1 ∧ demo3.getOptionsCalls ≤ 1 :=
  claim1_single_construction 2 false false demo3 demoReach

/-- C2: in every reachable state the registration log is exactly the
execution log followed by the still-queued tasks. Hence tasks execute in
their registration (FIFO) order - the execution log extends to the
registration log - no registered task is dropped or reordered, and since
the registration log never repeats a task, no task is executed twice.
That the drain executes the whole queue and clears it is the `emit` and
`drain` transitions themselves. -/
theorem claim2_fifo_drain (n : Nat) (a f : Bool) (s : Sys)
    (h : Reach (Sys.init n a f) s) :
    s.registered = s.executed ++ s.queue
    ∧ (∃ t, s.executed ++ t = s.registered)
    ∧ s.registered.Nodup ∧ s.executed.Nodup := by
  have hv := inv_reach h
  have hn : (s.executed ++ s.queue).Nodup := by
    rw [← hv.regEq]
    exact hv.regNodup
  exact ⟨hv.regEq, ⟨s.queue, hv.regEq.symm⟩, hv.regNodup, hn.of_append_left⟩

/-- Witness for C2 on the concrete two-call run: both tasks executed in
registration order, queue empty. -/
theorem claim2_fifo_drain_witness :
    demo3.registered = demo3.executed ++ demo3.queue
    ∧ (∃ t, demo3.executed ++ t = demo3.registered)
    ∧ demo3.registered.Nodup ∧ demo3.executed.Nodup :=
  claim2_fifo_drain 2 false false demo3 demoReach

/-- C7: what the code actually does when backend client construction
throws (the claim says the failure is propagated to every queued caller).
In every state reachable in a run whose construction fails, no task has
ever been executed and no client exists: `getStore` never settles, the
queue is never drained, and every pending caller waits forever. A caller
promise settles only inside its queued task, so no caller ever observes
the failure. -/
theorem claim7_construction_failure_hangs (n : Nat) (a : Bool) (s : Sys)
    (h : Reach (Sys.init n a true) s) :
    s.executed = [] ∧ s.client = false := by
  have hf : s.ctorFails = true := reach_ctorFails h
  exact (inv_reach h).failNoExec hf

/-- The failing run used for C7: one call, synchronous configuration,
construction throws; after its only possible step the call is stuck. -/
def demoF0 : Sys := Sys.init 1 false true

def demoF1 : Sys :=
  { asyncMode := false, ctorFails := true, client := false, constructions := 1,
    getOptionsCalls := 0, queue := [0], executed := [], registered := [0],
    threads := [Phase.stuck] }

theorem demoFStep : Step 0 demoF0 demoF1 :=
  Step.leadSync 0 demoF0 rfl rfl rfl rfl

theorem demoFReach : Reach demoF0 demoF1 :=
  Relation.ReflTransGen.single ⟨0, demoFStep⟩

/-- Witness for C7 at the failing input: one pending call, construction
throws, nothing is executed and no client appears. -/
theorem claim7_construction_failure_hangs_witness :
    demoF1.executed = [] ∧ demoF1.client = false :=
  claim7_construction_failure_hangs 1 false demoF1 demoFReach

/-- C10: a call that arrives while the client is absent and at least one
task is already queued moves to the `blocked` phase, in which its
`getStore` promise never settles: a blocked call has no enabled
transition at all (in particular its own init routine never emits), and
no transition of any other call ever changes its phase - its registered
task can only run because some other call drains the queue. -/
theorem claim10_follower_never_settles (s s' : Sys) (i j : Nat) :
    (s.threads[i]? = some Phase.start → s.client = false → s.queue ≠ [] →
      Step i s s' → s'.threads[i]? = some Phase.blocked)
    ∧ (s.threads[i]? = some Phase.blocked → ¬ Step i s s')
    ∧ (s.threads[i]? = some Phase.blocked → Step j s s' →
      s'.threads[i]? = some Phase.blocked) := by
  refine ⟨?_, ?_, ?_⟩
  · intro hstart hcl hq hstep
    cases hstep with
    | drain h1 h2 =>
      rw [h2] at hcl
      cases hcl
    | defer h1 h2 h3 =>
      exact get_set_self h1
    | leadAsync h1 h2 h3 h4 => exact (hq h3).elim
    | leadSync h1 h2 h3 h4 => exact (hq h3).elim
    | optionsDone pf h1 =>
      rw [hstart] at h1
      cases h1
    | emit h1 =>
      rw [hstart] at h1
      cases h1
  · intro hb hstep
    cases hstep with
    | drain h1 h2 => rw [hb] at h1; cases h1
    | defer h1 h2 h3 => rw [hb] at h1; cases h1
    | leadAsync h1 h2 h3 h4 => rw [hb] at h1; cases h1
    | leadSync h1 h2 h3 h4 => rw [hb] at h1; cases h1
    | optionsDone pf h1 => rw [hb] at h1; cases h1
    | emit h1 => rw [hb] at h1; cases h1
  · intro hb hstep
    cases hstep with
    | drain h1 h2 =>
      have hij : j ≠ i := by
        intro he
        rw [he, hb] at h1
        cases h1
      rw [List.getElem?_set_ne hij]
      exact hb
    | defer h1 h2 h3 =>
      have hij : j ≠ i := by
        intro he
        rw [he, hb] at h1
        cases h1
      rw [List.getElem?_set_ne hij]
      exact hb
    | leadAsync h1 h2 h3 h4 =>
      have hij : j ≠ i := by
        intro he
        rw [he, hb] at h1
        cases h1
      rw [List.getElem?_set_ne hij]
      exact hb
    | leadSync h1 h2 h3 h4 =>
      have hij : j ≠ i := by
        intro he
        rw [he, hb] at h1
        cases h1
      rw [List.getElem?_set_ne hij]
      exact hb
    | optionsDone pf h1 =>
      have hij : j ≠ i := by
        intro he
        rw [he, hb] at h1
        cases h1
      rw [List.getElem?_set_ne hij]
      exact hb
    | emit h1 =>
      have hij : j ≠ i := by
        intro he
        rw [he, hb] at h1
        cases h1
      rw [List.getElem?_set_ne hij]
      exact hb

/-- The deferring run used for C10: call 0 leads with asynchronous
configuration and is suspended at the provider await; call 1 arrives,
sees a nonempty queue and defers; the provider then settles and call 0
constructs the client, while call 1 stays blocked. -/
def demoA : Sys :=
  { asyncMode := true, ctorFails := false, client := false, constructions := 0,
    getOptionsCalls := 1, queue := [0], executed := [], registered := [0],
    threads := [Phase.awaitingOptions, Phase.start] }

def demoB : Sys :=
  { asyncMode := true, ctorFails := false, client := false, constructions := 0,
    getOptionsCalls := 1, queue := [0, 1], executed := [], registered := [0, 1],
    threads := [Phase.awaitingOptions, Phase.blocked] }

def demoC : Sys :=
  { asyncMode := true, ctorFails := false, client := true, constructions := 1,
    getOptionsCalls := 1, queue := [0, 1], executed := [], registered := [0, 1],
    threads := [Phase.awaitingEmit, Phase.blocked] }

theorem demoStepAB : Step 1 demoA demoB :=
  Step.defer 1 demoA rfl rfl (by simp [demoA])

theorem demoStepBC : Step 0 demoB demoC :=
  Step.optionsDone 0 demoB true rfl

/-- Witness for C10 on the concrete deferring run: call 1 ends blocked
after its prologue, a blocked call has no step to take, and the leader
resuming leaves it blocked. -/
theorem claim10_follower_never_settles_witness :
    demoB.threads[1]? = some Phase.blocked
    ∧ ¬ Step 1 demoB demoC
    ∧ demoC.threads[1]? = some Phase.blocked :=
  ⟨(claim10_follower_never_settles demoA demoB 1 1).1 rfl rfl
      (by simp [demoA]) demoStepAB,
   (claim10_follower_never_settles demoB demoC 1 0).2.1 rfl,
   (claim10_follower_never_settles demoB demoC 1 0).2.2 rfl demoStepBC⟩

end XyAlioss
